import Mathlib

/- Verification development for the med_deepresearch agent_v2 runtime.

   The definitions below are shallow embeddings of the Python sources:
     src/agent_v2/agent.py        (parse_final_result, Agent.run)
     src/agent_v2/session.py      (Session)
     src/agent_v2/tools/registry.py (get_tool_schemas, execute_tool)
     src/agent_v2/image_loader.py (ImageLoader)
     src/agent_v2/skills/med-deepresearch/scripts/spawn_subagents.py

   External collaborators (the OpenAI chat client, json.loads / json.dumps
   from the standard library, the file system, bash execution, the browser
   image fetcher) are modelled as explicit parameters, exactly at the
   interface the source uses them. -/

/- A model of the Python values that flow through the code: JSON payloads,
   session-store entries and final-result data.  Python None is the
   constructor PyObj.none. -/
inductive PyObj where
  | none : PyObj
  | bool (b : Bool) : PyObj
  | int (n : Int) : PyObj
  | str (s : String) : PyObj
  | list (xs : List PyObj) : PyObj
  | dict (kvs : List (String × PyObj)) : PyObj

/- Python truthiness: None, False, 0, empty string, empty list and empty
   dict are falsy; everything else is truthy. -/
def truthy : PyObj → Bool
  | PyObj.none => false
  | PyObj.bool b => b
  | PyObj.int n => !(n == 0)
  | PyObj.str s => !(s == "")
  | PyObj.list xs => !xs.isEmpty
  | PyObj.dict kvs => !kvs.isEmpty

/- Discriminator for the Python test `x is None`. -/
def PyObj.isNone : PyObj → Bool
  | PyObj.none => true
  | _ => false

/- The code points Python treats as whitespace both for the regex class
   and for str.strip with no arguments. -/
def pySpaceCodes : List UInt32 :=
  [9, 10, 11, 12, 13, 28, 29, 30, 31, 32, 133, 160, 0x1680,
   0x2000, 0x2001, 0x2002, 0x2003, 0x2004, 0x2005, 0x2006, 0x2007,
   0x2008, 0x2009, 0x200a, 0x2028, 0x2029, 0x202f, 0x205f, 0x3000]

def isPySpace (c : Char) : Bool := pySpaceCodes.contains c.val

/- Python str.strip with no arguments: remove leading and trailing
   whitespace. -/
def pyStrip (l : List Char) : List Char :=
  ((l.dropWhile isPySpace).reverse.dropWhile isPySpace).reverse

/- Leftmost-occurrence search of a literal substring, the way re.search
   scans for a literal: returns the least index at which needle is a
   prefix of the remaining suffix. -/
def findSub (needle : List Char) : List Char → Option Nat
  | [] => if needle.isPrefixOf ([] : List Char) then some 0 else none
  | c :: t =>
    if needle.isPrefixOf (c :: t) then some 0
    else (findSub needle t).map (· + 1)

/- needle occurs in hay at index i. -/
def occursAt (needle hay : List Char) (i : Nat) : Prop :=
  needle <+: hay.drop i

theorem findSub_none (needle : List Char) :
    ∀ hay : List Char, findSub needle hay = none →
      ∀ j, ¬ occursAt needle hay j := by
  intro hay
  induction hay with
  | nil =>
    intro hn j hocc
    have h0 : needle = [] := by
      unfold occursAt at hocc
      simpa using hocc
    subst h0
    simp [findSub] at hn
  | cons c t ih =>
    intro hn j hocc
    unfold findSub at hn
    by_cases h : needle.isPrefixOf (c :: t) = true
    · simp [h] at hn
    · simp [h] at hn
      have ht : findSub needle t = none := by
        cases hfd : findSub needle t with
        | none => rfl
        | some k => rw [hfd] at hn; simp at hn
      cases j with
      | zero =>
        unfold occursAt at hocc
        rw [List.drop_zero] at hocc
        exact h (List.isPrefixOf_iff_prefix.mpr hocc)
      | succ j' =>
        have hocc' : occursAt needle t j' := by
          unfold occursAt at hocc ⊢
          rwa [List.drop_succ_cons] at hocc
        exact ih ht j' hocc'

theorem findSub_some (needle : List Char) :
    ∀ hay : List Char, ∀ i, findSub needle hay = some i →
      occursAt needle hay i ∧ ∀ j, j < i → ¬ occursAt needle hay j := by
  intro hay
  induction hay with
  | nil =>
    intro i hi
    unfold findSub at hi
    by_cases h : needle.isPrefixOf ([] : List Char) = true
    · simp only [h, if_true, Option.some.injEq] at hi
      subst hi
      constructor
      · unfold occursAt
        exact List.isPrefixOf_iff_prefix.mp h
      · intro j hj
        omega
    · simp [h] at hi
  | cons c t ih =>
    intro i hi
    unfold findSub at hi
    by_cases h : needle.isPrefixOf (c :: t) = true
    · simp only [h, if_true, Option.some.injEq] at hi
      subst hi
      constructor
      · unfold occursAt
        rw [List.drop_zero]
        exact List.isPrefixOf_iff_prefix.mp h
      · intro j hj
        omega
    · rw [if_neg h] at hi
      cases hfd : findSub needle t with
      | none => rw [hfd] at hi; simp at hi
      | some k =>
        rw [hfd] at hi
        simp only [Option.map_some', Option.some.injEq] at hi
        subst hi
        have hk := ih k hfd
        constructor
        · unfold occursAt
          rw [List.drop_succ_cons]
          exact hk.1
        · intro j hj
          cases j with
          | zero =>
            intro hocc
            unfold occursAt at hocc
            rw [List.drop_zero] at hocc
            exact h (List.isPrefixOf_iff_prefix.mpr hocc)
          | succ j' =>
            intro hocc
            unfold occursAt at hocc
            rw [List.drop_succ_cons] at hocc
            exact hk.2 j' (by omega) hocc

/- The two literal markers of the Final Result Protocol, agent.py lines
   38 and 39. -/
def START_MARK : List Char := "<<<FINAL_RESULT>>>".data

def END_MARK : List Char := "<<<END_FINAL_RESULT>>>".data

/- The effect of re.search over the pattern used at agent.py line 59 with
   DOTALL: the match, when it exists, starts at the leftmost occurrence of
   the start marker, ends at the first occurrence of the end marker after
   it (the lazy group cannot cross the end marker, whose first character
   is not whitespace), and group 1 is the text between the markers with
   surrounding whitespace absorbed by the two greedy whitespace classes,
   i.e. the stripped inter-marker text. -/
def regexSearchFinal (s : List Char) : Option (List Char) :=
  match findSub START_MARK s with
  | Option.none => Option.none
  | some i =>
    match findSub END_MARK (s.drop (i + START_MARK.length)) with
    | Option.none => Option.none
    | some j => some (pyStrip ((s.drop (i + START_MARK.length)).take j))

/- agent.py lines 42-69.  json.loads is an external collaborator and is
   passed as the parameter loads; Option.none models JSONDecodeError, and
   a successful parse returns the decoded value (which is PyObj.none when
   the payload is the JSON literal null, matching Python returning None). -/
def parse_final_result (loads : List Char → Option PyObj) (output : List Char) :
    Bool × PyObj :=
  match regexSearchFinal output with
  | Option.none => (false, PyObj.none)
  | some g =>
    match loads g with
    | some v => (true, v)
    | Option.none => (true, PyObj.dict [("raw", PyObj.str (String.mk (pyStrip g)))])

/- ----------------------------------------------------------------------
   Tool registry, src/agent_v2/tools/registry.py.
   The process-wide dict _TOOL_REGISTRY is modelled as an association
   list in insertion (registration) order with unique keys; the schema
   payload is kept generic since the claims only concern selection and
   ordering. -/

/- Python dict lookup by key (keys are unique). -/
def regLookup {α : Type} (n : String) : List (String × α) → Option α
  | [] => Option.none
  | (k, v) :: rest => if n = k then some v else regLookup n rest

/- registry.py lines 100-108: with no subset return every schema in
   catalogue order; with a subset, iterate over the requested names,
   keep the registered ones and drop unknown names. -/
def get_tool_schemas {α : Type} (reg : List (String × α)) :
    Option (List String) → List α
  | Option.none => reg.map Prod.snd
  | some names => names.filterMap (fun n => regLookup n reg)

/- Modelled from the spec: "returns schema objects for the requested
   subset, in catalogue order, silently dropping unknown names" — the
   catalogue-order reading of get_tool_schemas, for comparison with the
   source definition above. -/
def get_tool_schemas_catalogue {α : Type} (reg : List (String × α))
    (names : List String) : List α :=
  (reg.filter (fun p => decide (p.1 ∈ names))).map Prod.snd

/- A single quote character, used by the not-found message of
   execute_tool. -/
def quoteChar : String := String.singleton (Char.ofNat 39)

/- The f-string at registry.py line 126. -/
def toolNotFoundMsg (name : String) : String :=
  "Error: Tool " ++ quoteChar ++ name ++ quoteChar ++ " not found"

/- A registered tool implementation: applied to the argument mapping it
   either raises (Except.error carries str(e)) or returns a value that is
   either None or some string (str of the returned object). -/
def ToolImpl (args : Type) : Type := args → Except String (Option String)

/- registry.py lines 123-132. -/
def execute_tool {args : Type} (reg : List (String × ToolImpl args))
    (name : String) (a : args) : String :=
  match regLookup name reg with
  | Option.none => toolNotFoundMsg name
  | some f =>
    match f a with
    | Except.error e => "Error: " ++ e
    | Except.ok Option.none => "Success"
    | Except.ok (some r) => r

/- ----------------------------------------------------------------------
   Session persistence, src/agent_v2/session.py.
   The JSON session file is modelled as the parsed object save writes:
   each key is present or absent, matching the data.get calls of _load.
   File locking and the file system are outside the model; save returns
   the written file content, _load consumes one. -/

structure SessionState where
  context : String
  store : List PyObj
  history : List PyObj
  created_at : String
  updated_at : String

structure SessionFileData where
  context : Option String
  store : Option (List PyObj)
  history : Option (List PyObj)
  created_at : Option String
  updated_at : Option String

/- session.py lines 76-94: stamp updated_at with the current time and
   serialize every field; returns the updated in-memory state and the
   file content written. -/
def session_save (now : String) (s : SessionState) :
    SessionState × SessionFileData :=
  let s2 := { s with updated_at := now }
  (s2,
   { context := some s2.context
     store := some s2.store
     history := some s2.history
     created_at := some s2.created_at
     updated_at := some s2.updated_at })

/- session.py lines 56-74: a missing, malformed or unreadable file leaves
   the state unchanged (modelled by the Option.none case); otherwise each
   field is read with data.get, falling back to the current value for
   context and the timestamps and to the empty list for store and
   history. -/
def session_load (file : Option SessionFileData) (s : SessionState) :
    SessionState :=
  match file with
  | Option.none => s
  | some d =>
    { context := d.context.getD s.context
      store := d.store.getD []
      history := d.history.getD []
      created_at := d.created_at.getD s.created_at
      updated_at := d.updated_at.getD s.updated_at }

/- ----------------------------------------------------------------------
   Image loading and injection, src/agent_v2/image_loader.py and
   src/agent_v2/agent.py lines 335-364.
   The CSV index maps a case id to its image rows; cache lookup and the
   browser fetcher are an external collaborator, passed as the resolve
   parameter (some url on success, none when the image is unavailable). -/

structure ImgRec where
  url : String
  caption : String
  img_id : String

inductive Block where
  | text (s : String) : Block
  | image (url : String) : Block

inductive MsgContent where
  | text (s : String) : MsgContent
  | blocks (bs : List Block) : MsgContent

structure Msg where
  role : String
  content : MsgContent

structure LoaderState where
  idx : List (String × List ImgRec)
  resolve : String → ImgRec → Option String

/- image_loader.py lines 209-210. -/
def get_images (idx : List (String × List ImgRec)) (cid : String) :
    List ImgRec :=
  (regLookup cid idx).getD []

/- image_loader.py lines 212-213. -/
def has_images (idx : List (String × List ImgRec)) (cid : String) : Bool :=
  (regLookup cid idx).isSome

/- The per-image loop of format_as_api_content, image_loader.py lines
   297-315; i is the 1-based position, total the case's image count. -/
def apiBlocksAux (resolve : String → ImgRec → Option String) (cid : String)
    (total : Nat) : Nat → List ImgRec → List Block
  | _, [] => []
  | i, img :: rest =>
    let caption := if img.caption = "" then "Image " ++ toString i else img.caption
    match resolve cid img with
    | Option.none =>
      Block.text ("[Image " ++ toString i ++ "/" ++ toString total ++ "] "
        ++ caption ++ " (image not available)")
        :: apiBlocksAux resolve cid total (i + 1) rest
    | some url =>
      Block.text ("[Image " ++ toString i ++ "/" ++ toString total ++ "] " ++ caption)
        :: Block.image url
        :: apiBlocksAux resolve cid total (i + 1) rest

/- image_loader.py lines 286-316. -/
def format_as_api_content (ld : LoaderState) (cid : String) : List Block :=
  let images := get_images ld.idx cid
  if images.isEmpty then []
  else apiBlocksAux ld.resolve cid images.length 1 images

/- image_loader.py lines 318-328. -/
def format_as_text (idx : List (String × List ImgRec)) (cid : String) : String :=
  let images := get_images idx cid
  if images.isEmpty then ""
  else
    String.intercalate "\n"
      (("Case " ++ cid ++ " has " ++ toString images.length ++ " image(s):")
        :: (apiTextLines 1 images))
where
  apiTextLines : Nat → List ImgRec → List String
  | _, [] => []
  | i, img :: rest =>
    let caption := if img.caption = "" then "No caption" else img.caption
    ("  " ++ toString i ++ ". " ++ caption ++ " (URL: " ++ img.url ++ ")")
      :: apiTextLines (i + 1) rest

/- agent.py lines 335-364: Agent._inject_case_images.  Returns the
   injected flag and the resulting messages list. -/
def inject_case_images (loader : Option LoaderState) (supports_vision : Bool)
    (cid : String) (messages : List Msg) : Bool × List Msg :=
  match loader with
  | Option.none => (false, messages)
  | some ld =>
    if has_images ld.idx cid = false then (false, messages)
    else if supports_vision then
      let img_blocks := format_as_api_content ld cid
      if img_blocks.isEmpty then (false, messages)
      else
        (true, messages ++
          [{ role := "user"
             content := MsgContent.blocks
               (Block.text ("--- Medical images for case " ++ cid ++ " ---")
                 :: img_blocks) }])
    else
      let text_desc := format_as_text ld.idx cid
      if text_desc = "" then (false, messages)
      else (true, messages ++ [{ role := "user", content := MsgContent.text text_desc }])

/- ----------------------------------------------------------------------
   The Agent/Session constructor mismatch, claim C4.
   Python call semantics: calling a function that declares no **kwargs
   with a keyword argument outside its declared parameter list raises
   TypeError before the body runs. -/

/- The keyword parameters Session.__init__ declares besides self,
   session.py lines 29-34. -/
def session_init_params : List String :=
  ["session_id", "session_dir", "context"]

/- The keyword arguments Agent.__init__ passes to Session,
   agent.py lines 140-144. -/
def agent_session_call_kwargs : List String :=
  ["session_id", "session_dir", "agent_name"]

/- True when a Python call binding the given keyword arguments against
   the given parameter list (with no **kwargs collector) raises
   TypeError: some keyword is not a declared parameter. -/
def pythonCallRaisesTypeError (params kwargs : List String) : Bool :=
  kwargs.any (fun k => !(params.contains k))

/- Every attribute Session.__init__ (together with _load, which assigns
   the same fields) defines on a Session instance, session.py lines
   35-45 and 56-74. -/
def session_instance_attrs : List String :=
  ["session_id", "session_dir", "context", "store", "history",
   "created_at", "updated_at"]

/- ----------------------------------------------------------------------
   The Agent run loop, src/agent_v2/agent.py lines 366-622.

   The chat-completion client is an external collaborator: the oracle maps
   the index of the call (0-based, in call order) to the outcome, either a
   raised exception or a message with optional text content and a list of
   requested tool calls.  Each scripted tool call carries the command the
   model put in its arguments and the string the external tool execution
   produced.  Message-list bookkeeping (system prompt, tool-role replies,
   the turn-counter reminder appended to the last message) does not feed
   back into any claim and is not tracked; the trajectory bookkeeping the
   claims are about is tracked exactly.  Image injection inside the loop
   (agent.py lines 511-522) only touches the message list and the
   images_injected key of the current turn record; its external parts
   (navigate-pattern match on the command plus a successful injection)
   are folded into the inject parameter. -/

structure SToolCall where
  name : String
  command : String
  result : String

inductive LLMResp where
  | fail (e : String) : LLMResp
  | reply (content : Option String) (tool_calls : List SToolCall) : LLMResp

structure TCRec where
  name : String
  result : String
  is_final : Bool

structure TurnRec where
  turn : Nat
  content : Option String
  tool_calls : List TCRec
  final : Bool
  images_injected : List String
  synthesis : Bool

structure RunCfg where
  max_turns : Nat
  tools : List String
  loads : List Char → Option PyObj
  dumps : PyObj → String
  inject : String → Option String

/- The tools argument passed to chat.completions.create, agent.py lines
   449 and 576: self.tools if self.tools else None, in both call sites. -/
def toolsArg (cfg : RunCfg) : Option (List String) :=
  if cfg.tools.isEmpty then Option.none else some cfg.tools

/- The per-tool-call loop body, agent.py lines 473-502: execute each call
   in order; a bash result is scanned for the Final Result marker
   (agent.py lines 311-320), and the first final call stops the loop.
   Returns the tool-call records of the executed calls and, when a final
   call was hit, its parsed payload and raw result string. -/
def procCalls (loads : List Char → Option PyObj) :
    List SToolCall → List TCRec × Option (PyObj × String)
  | [] => ([], Option.none)
  | c :: rest =>
    if c.name = "bash" then
      match parse_final_result loads c.result.data with
      | (true, fd) => ([⟨c.name, c.result, true⟩], some (fd, c.result))
      | (false, _) =>
        let r := procCalls loads rest
        (⟨c.name, c.result, false⟩ :: r.1, r.2)
    else
      let r := procCalls loads rest
      (⟨c.name, c.result, false⟩ :: r.1, r.2)

/- The case ids whose images get injected after this turn's tool results,
   agent.py lines 511-522. -/
def injectedIds (cfg : RunCfg) (tcs : List SToolCall) : List String :=
  tcs.filterMap (fun c => if c.name = "bash" then cfg.inject c.command else Option.none)

/- The mutable locals of the while loop: turn counter, index of the next
   LLM call, the trajectory turns list, the trace of assignments to
   trajectory["termination_reason"] (in assignment order), the tools
   argument of every LLM call made so far, final_response and
   final_result_data. -/
structure LoopSt where
  turn : Nat
  callIdx : Nat
  turns : List TurnRec
  reasons : List String
  callsTools : List (Option (List String))
  final_response : String
  final_data : PyObj

/- Outcome of one iteration of the while loop: halt carries the state at
   a break, next the state at the end of an iteration that loops on. -/
inductive StepOut where
  | halt (st : LoopSt) : StepOut
  | next (st : LoopSt) : StepOut

/- One iteration of the while loop of Agent.run, agent.py lines 442-552,
   given the outcome resp of this iteration's LLM call.  On a client
   exception the run records llm_error and breaks; with no tool calls it
   records llm_complete and breaks; otherwise the tool calls are executed
   in order.  A final result appends the turn record twice (agent.py
   lines 501 and 504) and breaks the outer loop only when the parsed
   payload is not None (line 507); when the payload is None the loop
   keeps running with final_response already set to the raw tool result
   and the reason already set to final_result. -/
def runStep (cfg : RunCfg) (resp : LLMResp) (st : LoopSt) : StepOut :=
  let turn := st.turn + 1
  let ci := st.callIdx + 1
  let ct := st.callsTools ++ [toolsArg cfg]
  match resp with
  | LLMResp.fail e =>
    StepOut.halt
      { st with turn := turn, callIdx := ci, callsTools := ct,
                final_response := "Error calling LLM: " ++ e,
                reasons := st.reasons ++ ["llm_error"] }
  | LLMResp.reply content [] =>
    StepOut.halt
      { st with turn := turn, callIdx := ci, callsTools := ct,
                final_response := content.getD "",
                reasons := st.reasons ++ ["llm_complete"],
                turns := st.turns ++ [⟨turn, content, [], true, [], false⟩] }
  | LLMResp.reply content (c :: cs) =>
    let tcs := c :: cs
    match procCalls cfg.loads tcs with
    | (recs, some (fd, res)) =>
      let imgs := if fd.isNone then injectedIds cfg tcs else []
      let tr : TurnRec := ⟨turn, content, recs, true, imgs, false⟩
      let st2 := { st with turn := turn, callIdx := ci, callsTools := ct,
                           final_data := fd,
                           final_response := if truthy fd then cfg.dumps fd else res,
                           reasons := st.reasons ++ ["final_result"],
                           turns := st.turns ++ [tr, tr] }
      if fd.isNone then StepOut.next st2 else StepOut.halt st2
    | (recs, Option.none) =>
      let tr : TurnRec := ⟨turn, content, recs, false, injectedIds cfg tcs, false⟩
      StepOut.next
        { st with turn := turn, callIdx := ci, callsTools := ct,
                  turns := st.turns ++ [tr] }

/- The while loop of Agent.run, agent.py lines 442-552, with fuel =
   max_turns - turn remaining iterations; each iteration consumes the
   next oracle outcome. -/
def runLoop (cfg : RunCfg) (oracle : Nat → LLMResp) : Nat → LoopSt → LoopSt
  | 0, st => st
  | Nat.succ fuel, st =>
    match runStep cfg (oracle st.callIdx) st with
    | StepOut.halt st2 => st2
    | StepOut.next st2 => runLoop cfg oracle fuel st2

structure RunResult where
  turns : List TurnRec
  reasons : List String
  output : String
  final_data : PyObj
  total_turns : Nat
  callsTools : List (Option (List String))

def initLoopSt : LoopSt := ⟨0, 0, [], [], [], "", PyObj.none⟩

/- Agent.run after the while loop, agent.py lines 554-602: when the turn
   budget is exhausted and final_response is still empty, the reason is
   set to max_turns_synthesized and one extra LLM call is made with the
   same tools argument as every loop call; on success its content (or a
   fixed fallback) becomes the output and a synthesis turn record is
   appended; on an exception the reason is overwritten with
   max_turns_synthesis_failed and a fixed error message becomes the
   output. -/
def runAgent (cfg : RunCfg) (oracle : Nat → LLMResp) : RunResult :=
  let st := runLoop cfg oracle cfg.max_turns initLoopSt
  if cfg.max_turns ≤ st.turn ∧ st.final_response = "" then
    let reasons1 := st.reasons ++ ["max_turns_synthesized"]
    match oracle st.callIdx with
    | LLMResp.fail e =>
      { turns := st.turns
        reasons := reasons1 ++ ["max_turns_synthesis_failed"]
        output := "Reached maximum reasoning steps. Failed to synthesize: " ++ e
        final_data := st.final_data
        total_turns := st.turn
        callsTools := st.callsTools ++ [toolsArg cfg] }
    | LLMResp.reply content _ =>
      let fr := content.getD "Unable to synthesize findings."
      { turns := st.turns ++ [⟨st.turn + 1, some fr, [], true, [], true⟩]
        reasons := reasons1
        output := fr
        final_data := st.final_data
        total_turns := st.turn
        callsTools := st.callsTools ++ [toolsArg cfg] }
  else
    { turns := st.turns
      reasons := st.reasons
      output := st.final_response
      final_data := st.final_data
      total_turns := st.turn
      callsTools := st.callsTools }

/- ----------------------------------------------------------------------
   Sub-agent spawner, spawn_subagents.py lines 63-205.

   Constructing and running one sub-agent is an external effect from the
   spawner's point of view; the outcomes parameter gives, per 0-based
   task index, either the report string of agent.run or the str(e) of
   whatever exception the try block caught.  Thread completion order is
   the order parameter, an arbitrary permutation of the task indices;
   the ThreadPoolExecutor guarantees nothing more.  list.sort with a key
   is modelled by insertion sort on the key, which agrees with any
   stable sort on the key-distinct lists arising here. -/

structure TaskRec where
  task_id : Nat
  task : String
  status : String
  report : Option String
  error : Option String
  session_id : Option String

/- spawn_subagents.py lines 63-107: run one sub-agent; every exception is
   caught and turned into a status error record. -/
def run_subagent (task_id : Nat) (task_description : String)
    (main_session_id : String) (outcome : Except String String) : TaskRec :=
  match outcome with
  | Except.ok report =>
    { task_id := task_id, task := task_description, status := "success",
      report := some report, error := Option.none,
      session_id := some (main_session_id ++ "_sub" ++ toString task_id) }
  | Except.error e =>
    { task_id := task_id, task := task_description, status := "error",
      report := Option.none, error := some e,
      session_id := Option.none }

/- The comparison key of results.sort at spawn_subagents.py line 183. -/
def tidLe (a b : TaskRec) : Prop := a.task_id ≤ b.task_id

def tidLt (a b : TaskRec) : Prop := a.task_id < b.task_id

instance : DecidableRel tidLe := fun a b => Nat.decLe a.task_id b.task_id

instance : DecidableRel tidLt := fun a b => Nat.decLt a.task_id b.task_id

instance : IsTotal TaskRec tidLe := ⟨fun a b => Nat.le_total a.task_id b.task_id⟩

instance : IsTrans TaskRec tidLe := ⟨fun _ _ _ hab hbc => Nat.le_trans hab hbc⟩

instance : IsAntisymm TaskRec tidLt :=
  ⟨fun _ _ hab hba => absurd hba (Nat.lt_asymm hab)⟩

/- A store note appended to the parent session by the spawner: either the
   task-assignment metadata (spawn_subagents.py lines 146-155) or the
   collected results (lines 186-192). -/
inductive StoreNote where
  | assignment (num_agents : Nat) (tasks : List (Nat × String)) : StoreNote
  | results (num_agents : Nat) (recs : List TaskRec) : StoreNote

structure SpawnOut where
  store : List StoreNote
  results : List TaskRec
  successful : Nat
  failed : Nat

/- spawn_subagents.py lines 143-203: append the task-assignment note,
   run all sub-agents (results arrive in completion order), sort by
   task_id, append the sorted result set as one note, and report the
   summary.  tasks is sys.argv[1:6], main_session_id the parent session
   id, outcomes the per-task external outcome, order the completion
   order of the worker threads. -/
def spawn_main (tasks : List String) (main_session_id : String)
    (outcomes : Nat → Except String String) (order : List Nat)
    (store0 : List StoreNote) : SpawnOut :=
  let assignment := StoreNote.assignment tasks.length
    ((List.range tasks.length).map (fun i => (i + 1, tasks.getD i "")))
  let store1 := store0 ++ [assignment]
  let collected := order.map
    (fun i => run_subagent (i + 1) (tasks.getD i "") main_session_id (outcomes i))
  let results := List.insertionSort tidLe collected
  let store2 := store1 ++ [StoreNote.results tasks.length results]
  { store := store2
    results := results
    successful := (results.filter (fun r => r.status = "success")).length
    failed := (results.filter (fun r => r.status = "error")).length }

/- ----------------------------------------------------------------------
   Claim theorems. -/

instance occursAtDecidable (n h : List Char) (i : Nat) : Decidable (occursAt n h i) :=
  decidable_of_iff (n.isPrefixOf (h.drop i) = true)
    (by unfold occursAt; exact List.isPrefixOf_iff_prefix)

theorem occursAt_drop (n s : List Char) (k m : Nat) :
    occursAt n (s.drop k) m ↔ occursAt n s (m + k) := by
  unfold occursAt
  rw [List.drop_drop, Nat.add_comm]

theorem regexSearchFinal_of_no_pair (s : List Char)
    (h : ¬ ∃ i j, occursAt START_MARK s i ∧ occursAt END_MARK s j
          ∧ i + START_MARK.length ≤ j) :
    regexSearchFinal s = Option.none := by
  unfold regexSearchFinal
  cases hs : findSub START_MARK s with
  | none => rfl
  | some i =>
    dsimp only
    cases he : findSub END_MARK (s.drop (i + START_MARK.length)) with
    | none => rfl
    | some j =>
      exfalso
      apply h
      have h1 := (findSub_some _ _ _ hs).1
      have h2 := (findSub_some _ _ _ he).1
      rw [occursAt_drop] at h2
      exact ⟨i, j + (i + START_MARK.length), h1, h2, by omega⟩

theorem regexSearchFinal_of_first_pair (s : List Char) (i j : Nat)
    (hi : occursAt START_MARK s i)
    (himin : ∀ i', i' < i → ¬ occursAt START_MARK s i')
    (hj : occursAt END_MARK s j)
    (hij : i + START_MARK.length ≤ j)
    (hjmin : ∀ j', j' < j → i + START_MARK.length ≤ j' → ¬ occursAt END_MARK s j') :
    regexSearchFinal s =
      some (pyStrip ((s.drop (i + START_MARK.length)).take
        (j - (i + START_MARK.length)))) := by
  unfold regexSearchFinal
  cases hs : findSub START_MARK s with
  | none => exact absurd hi (findSub_none _ _ hs i)
  | some i0 =>
    dsimp only
    obtain ⟨hocc0, hmin0⟩ := findSub_some _ _ _ hs
    have hii : i0 = i := by
      rcases Nat.lt_trichotomy i0 i with hlt | heq | hgt
      · exact absurd hocc0 (himin i0 hlt)
      · exact heq
      · exact absurd hi (hmin0 i hgt)
    subst hii
    cases he : findSub END_MARK (s.drop (i0 + START_MARK.length)) with
    | none =>
      exfalso
      have hocc : occursAt END_MARK (s.drop (i0 + START_MARK.length))
          (j - (i0 + START_MARK.length)) := by
        rw [occursAt_drop]
        have hq : j - (i0 + START_MARK.length) + (i0 + START_MARK.length) = j := by omega
        rw [hq]
        exact hj
      exact findSub_none _ _ he _ hocc
    | some j0 =>
      dsimp only
      obtain ⟨hocc0e, hmin0e⟩ := findSub_some _ _ _ he
      rw [occursAt_drop] at hocc0e
      have hjj : j0 = j - (i0 + START_MARK.length) := by
        rcases Nat.lt_trichotomy (j0 + (i0 + START_MARK.length)) j with hlt | heq | hgt
        · exact absurd hocc0e (hjmin _ hlt (by omega))
        · omega
        · exfalso
          have hlt2 : j - (i0 + START_MARK.length) < j0 := by omega
          have hocc : occursAt END_MARK (s.drop (i0 + START_MARK.length))
              (j - (i0 + START_MARK.length)) := by
            rw [occursAt_drop]
            have hq : j - (i0 + START_MARK.length) + (i0 + START_MARK.length) = j := by
              omega
            rw [hq]
            exact hj
          exact hmin0e _ hlt2 hocc
      rw [hjj]

/-- C1: parse_final_result returns (False, None) when the text contains no
start marker followed by an end marker; when the first such marker pair
exists, all text outside the pair is ignored and the result is determined
by the whitespace-stripped inter-marker text t alone: (True, the parsed
JSON value) when json.loads accepts t, and (True, a dict mapping "raw" to
the stripped text) when it raises. -/
theorem c1_parse_final_result (loads : List Char → Option PyObj) (s : List Char) :
    ((¬ ∃ i j, occursAt START_MARK s i ∧ occursAt END_MARK s j
        ∧ i + START_MARK.length ≤ j) →
      parse_final_result loads s = (false, PyObj.none))
    ∧ (∀ i j, occursAt START_MARK s i →
        (∀ i', i' < i → ¬ occursAt START_MARK s i') →
        occursAt END_MARK s j → i + START_MARK.length ≤ j →
        (∀ j', j' < j → i + START_MARK.length ≤ j' → ¬ occursAt END_MARK s j') →
        ((∀ v, loads (pyStrip ((s.drop (i + START_MARK.length)).take
              (j - (i + START_MARK.length)))) = some v →
            parse_final_result loads s = (true, v))
         ∧ (loads (pyStrip ((s.drop (i + START_MARK.length)).take
              (j - (i + START_MARK.length)))) = Option.none →
            parse_final_result loads s =
              (true, PyObj.dict [("raw", PyObj.str (String.mk (pyStrip (pyStrip
                ((s.drop (i + START_MARK.length)).take
                  (j - (i + START_MARK.length)))))))])))) := by
  constructor
  · intro h
    unfold parse_final_result
    rw [regexSearchFinal_of_no_pair s h]
  · intro i j hi himin hj hij hjmin
    have hre := regexSearchFinal_of_first_pair s i j hi himin hj hij hjmin
    constructor
    · intro v hv
      unfold parse_final_result
      rw [hre]
      dsimp only
      rw [hv]
    · intro hv
      unfold parse_final_result
      rw [hre]
      dsimp only
      rw [hv]

def c1Loads : List Char → Option PyObj :=
  fun l => if l = "ok".data then some (PyObj.int 7) else Option.none

/-- Witness for C1 at a concrete marker-bearing string and a loads
function accepting the inter-marker text. -/
theorem c1_parse_final_result_witness :
    parse_final_result c1Loads "<<<FINAL_RESULT>>>ok<<<END_FINAL_RESULT>>>".data
      = (true, PyObj.int 7) :=
  ((c1_parse_final_result c1Loads
      "<<<FINAL_RESULT>>>ok<<<END_FINAL_RESULT>>>".data).2 0 20
    (by decide) (by decide) (by decide) (by decide) (by decide)).1
    (PyObj.int 7) rfl

/-- C4: Agent.__init__ passes the keyword argument agent_name to
Session's constructor, which declares only session_id, session_dir and
context, so the call raises TypeError under Python call binding; and
agent_name is not among the attributes Session ever defines, while
Agent.run reads self.session.agent_name. -/
theorem c4_agent_session_type_error :
    pythonCallRaisesTypeError session_init_params agent_session_call_kwargs = true
    ∧ session_instance_attrs.contains "agent_name" = false := by
  decide

/-- C5: execute_tool is total and returns the not-found message for
unregistered names, the stringified exception for a raising
implementation, Success for a None result, and the result string
otherwise. -/
theorem c5_execute_tool_total {args : Type} (reg : List (String × ToolImpl args))
    (name : String) (a : args) :
    (regLookup name reg = Option.none →
      execute_tool reg name a = toolNotFoundMsg name)
    ∧ (∀ f, regLookup name reg = some f →
        (∀ e, f a = Except.error e → execute_tool reg name a = "Error: " ++ e)
        ∧ (f a = Except.ok Option.none → execute_tool reg name a = "Success")
        ∧ (∀ r, f a = Except.ok (some r) → execute_tool reg name a = r)) := by
  constructor
  · intro h
    unfold execute_tool
    rw [h]
  · intro f hf
    refine ⟨?_, ?_, ?_⟩
    · intro e he
      unfold execute_tool
      rw [hf]
      dsimp only
      rw [he]
    · intro he
      unfold execute_tool
      rw [hf]
      dsimp only
      rw [he]
    · intro r he
      unfold execute_tool
      rw [hf]
      dsimp only
      rw [he]

def c5Reg : List (String × ToolImpl Unit) :=
  [("think", fun _ => Except.ok (some "noted")),
   ("bash", fun _ => Except.ok Option.none),
   ("boom", fun _ => Except.error "division by zero")]

/-- Witness for C5 on a concrete three-tool registry covering all four
outcomes. -/
theorem c5_execute_tool_total_witness :
    execute_tool c5Reg "web_search" () = toolNotFoundMsg "web_search"
    ∧ execute_tool c5Reg "think" () = "noted"
    ∧ execute_tool c5Reg "bash" () = "Success"
    ∧ execute_tool c5Reg "boom" () = "Error: " ++ "division by zero" :=
  ⟨(c5_execute_tool_total c5Reg "web_search" ()).1 rfl,
   ((c5_execute_tool_total c5Reg "think" ()).2 _ rfl).2.2 "noted" rfl,
   ((c5_execute_tool_total c5Reg "bash" ()).2 _ rfl).2.1 rfl,
   ((c5_execute_tool_total c5Reg "boom" ()).2 _ rfl).1 "division by zero" rfl⟩

/-- C7: saving a session and loading the written file back, whether into
the same state or into a freshly constructed one, restores exactly the
context, store and history that were saved. -/
theorem c7_session_roundtrip (s t : SessionState) (now : String) :
    (session_load (some (session_save now s).2) t).context = s.context
    ∧ (session_load (some (session_save now s).2) t).store = s.store
    ∧ (session_load (some (session_save now s).2) t).history = s.history :=
  ⟨rfl, rfl, rfl⟩

theorem filterMap_regLookup_congr {α : Type} (k : String) (v : α)
    (rt : List (String × α)) (names : List String) (hk : k ∉ names) :
    names.filterMap (fun n => regLookup n ((k, v) :: rt))
      = names.filterMap (fun n => regLookup n rt) := by
  induction names with
  | nil => rfl
  | cons m ms ih =>
    have hmk : m ≠ k := fun h => hk (h ▸ List.mem_cons_self m ms)
    have hms : k ∉ ms := fun h => hk (List.mem_cons_of_mem _ h)
    simp only [List.filterMap_cons]
    have hlk : regLookup m ((k, v) :: rt) = regLookup m rt := by
      simp [regLookup, hmk]
    rw [hlk, ih hms]

theorem filter_mem_cons_congr {α : Type} (k : String) (rt : List (String × α))
    (ns : List String) (hk : k ∉ rt.map Prod.fst) :
    rt.filter (fun p => decide (p.1 ∈ k :: ns))
      = rt.filter (fun p => decide (p.1 ∈ ns)) := by
  apply List.filter_congr
  intro p hp
  have hpk : p.1 ≠ k := by
    intro h
    exact hk (h ▸ List.mem_map_of_mem Prod.fst hp)
  exact decide_eq_decide.mpr (by simp [List.mem_cons, hpk])

theorem sublist_lookup_catalogue {α : Type} :
    ∀ (reg : List (String × α)) (names : List String),
      (reg.map Prod.fst).Nodup → List.Sublist names (reg.map Prod.fst) →
      names.filterMap (fun n => regLookup n reg)
        = (reg.filter (fun p => decide (p.1 ∈ names))).map Prod.snd := by
  intro reg
  induction reg with
  | nil =>
    intro names _ hsub
    have hnil : names = [] := List.sublist_nil.mp hsub
    subst hnil
    rfl
  | cons hd rt ih =>
    intro names hnd hsub
    obtain ⟨k, v⟩ := hd
    simp only [List.map_cons] at hsub hnd
    have hknotin : k ∉ rt.map Prod.fst := (List.nodup_cons.mp hnd).1
    have hndrt : (rt.map Prod.fst).Nodup := (List.nodup_cons.mp hnd).2
    rcases List.sublist_cons_iff.mp hsub with hcase | ⟨ns, rfl, hns⟩
    · have hknames : k ∉ names := fun h => hknotin (hcase.subset h)
      rw [filterMap_regLookup_congr k v rt names hknames]
      rw [ih names hndrt hcase]
      rw [List.filter_cons]
      have hhead : (decide ((k, v).1 ∈ names)) = false := by
        simp [hknames]
      rw [hhead]
      simp
    · have hkns : k ∉ ns := fun h => hknotin (hns.subset h)
      simp only [List.filterMap_cons]
      have hlk : regLookup k ((k, v) :: rt) = some v := by
        unfold regLookup
        rw [if_pos rfl]
      rw [hlk]
      rw [filterMap_regLookup_congr k v rt ns hkns]
      rw [ih ns hndrt hns]
      rw [List.filter_cons]
      have hhead : (decide ((k, v).1 ∈ k :: ns)) = true := by simp
      rw [hhead]
      rw [filter_mem_cons_congr k rt ns hknotin]
      simp

def c6Reg : List (String × Nat) := [("a", 0), ("b", 1)]

/-- C6 counterexample: with catalogue [a, b] and request [b, a], the code
returns the schemas in request order [b, a], not in catalogue
(registration) order. -/
theorem c6_counterexample :
    get_tool_schemas c6Reg (some ["b", "a"])
      ≠ get_tool_schemas_catalogue c6Reg ["b", "a"] := by
  decide

/-- C6 amended: with no subset, get_tool_schemas returns every schema in
catalogue order; with a subset it returns the schemas of the known
requested names in request order, silently dropping unknown names; in
particular the original catalogue-order reading still holds whenever the
requested names are listed as a subsequence of the (duplicate-free)
catalogue. -/
theorem c6_get_tool_schemas_request_order {α : Type} (reg : List (String × α))
    (names : List String) :
    get_tool_schemas reg Option.none = reg.map Prod.snd
    ∧ get_tool_schemas reg (some names)
        = names.filterMap (fun n => regLookup n reg)
    ∧ ((reg.map Prod.fst).Nodup → List.Sublist names (reg.map Prod.fst) →
        get_tool_schemas reg (some names) = get_tool_schemas_catalogue reg names) := by
  refine ⟨rfl, rfl, ?_⟩
  intro hnd hsub
  unfold get_tool_schemas get_tool_schemas_catalogue
  exact sublist_lookup_catalogue reg names hnd hsub

/-- Witness for C6 amended at a concrete registry with the request listed
in catalogue order. -/
theorem c6_get_tool_schemas_request_order_witness :
    get_tool_schemas c6Reg (some ["b"]) = get_tool_schemas_catalogue c6Reg ["b"] :=
  (c6_get_tool_schemas_request_order c6Reg ["b"]).2.2 (by decide) (by decide)

/-- C8: when a case has zero images (whether the case id is absent from
the index or present with an empty image list), image injection returns
False and leaves the messages list exactly unchanged, for vision and
text model profiles alike. -/
theorem c8_inject_images_noop (ld : LoaderState) (sv : Bool) (cid : String)
    (msgs : List Msg) (h : get_images ld.idx cid = []) :
    inject_case_images (some ld) sv cid msgs = (false, msgs) := by
  unfold inject_case_images
  cases hx : regLookup cid ld.idx with
  | none =>
    simp [has_images, hx]
  | some imgs =>
    have himgs : imgs = [] := by
      unfold get_images at h
      rw [hx] at h
      simpa using h
    subst himgs
    have hb : has_images ld.idx cid = true := by simp [has_images, hx]
    cases sv with
    | false => simp [hb, format_as_text, get_images, hx]
    | true => simp [hb, format_as_api_content, get_images, hx]

def c8Loader : LoaderState :=
  { idx := [("123", [])], resolve := fun _ _ => Option.none }

/-- Witness for C8 on a concrete case id configured with zero images, for
both model profiles. -/
theorem c8_inject_images_noop_witness :
    inject_case_images (some c8Loader) true "123"
        [{ role := "user", content := MsgContent.text "hi" }]
      = (false, [{ role := "user", content := MsgContent.text "hi" }])
    ∧ inject_case_images (some c8Loader) false "123"
        [{ role := "user", content := MsgContent.text "hi" }]
      = (false, [{ role := "user", content := MsgContent.text "hi" }]) :=
  ⟨c8_inject_images_noop c8Loader true "123" _ rfl,
   c8_inject_images_noop c8Loader false "123" _ rfl⟩

/- ----------------------------------------------------------------------
   Run-loop lemmas for claims C2, C3 and C10. -/

/- The termination reasons the while loop itself can assign. -/
def loopReasons : List String := ["llm_error", "llm_complete", "final_result"]

/- The closed set of termination reasons named by the specification. -/
def termReasonSet : List String :=
  ["llm_complete", "final_result", "llm_error", "max_turns",
   "max_turns_synthesized", "max_turns_synthesis_failed"]

theorem loopReasons_subset_term : ∀ x ∈ loopReasons, x ∈ termReasonSet := by
  decide

/- The turns list contains some turn record twice in adjacent positions
   with its final flag set. -/
def DupFinal (l : List TurnRec) : Prop :=
  ∃ pre r suf, l = pre ++ r :: r :: suf ∧ r.final = true

theorem dupFinal_mono {l l2 : List TurnRec} (h : DupFinal l) (hp : l <+: l2) :
    DupFinal l2 := by
  obtain ⟨pre, r, suf, rfl, hr⟩ := h
  obtain ⟨t, rfl⟩ := hp
  refine ⟨pre, r, suf ++ t, ?_, hr⟩
  simp

theorem runStep_halt_facts (cfg : RunCfg) (resp : LLMResp) (st st2 : LoopSt)
    (h : runStep cfg resp st = StepOut.halt st2) :
    st.turns <+: st2.turns
    ∧ st.reasons <+: st2.reasons
    ∧ (∃ r, r ∈ loopReasons ∧ st2.reasons = st.reasons ++ [r])
    ∧ ("final_result" ∈ st2.reasons →
        "final_result" ∈ st.reasons ∨ DupFinal st2.turns) := by
  cases resp with
  | fail e =>
    simp only [runStep] at h
    cases h
    refine ⟨List.prefix_refl _, List.prefix_append _ _,
      ⟨"llm_error", by simp [loopReasons], rfl⟩, ?_⟩
    intro hm
    rcases List.mem_append.mp hm with hm | hm
    · exact Or.inl hm
    · simp at hm
  | reply content tcs =>
    cases tcs with
    | nil =>
      simp only [runStep] at h
      cases h
      refine ⟨List.prefix_append _ _, List.prefix_append _ _,
        ⟨"llm_complete", by simp [loopReasons], rfl⟩, ?_⟩
      intro hm
      rcases List.mem_append.mp hm with hm | hm
      · exact Or.inl hm
      · simp at hm
    | cons c cs =>
      simp only [runStep] at h
      rcases hp : procCalls cfg.loads (c :: cs) with ⟨recs, fin⟩
      rw [hp] at h
      cases fin with
      | none => simp at h
      | some pair =>
        obtain ⟨fd, res⟩ := pair
        dsimp only at h
        cases hn : fd.isNone with
        | true => rw [if_pos hn] at h; simp at h
        | false =>
          rw [if_neg (by simp [hn])] at h
          cases h
          refine ⟨List.prefix_append _ _, List.prefix_append _ _,
            ⟨"final_result", by simp [loopReasons], rfl⟩, ?_⟩
          intro _
          right
          exact ⟨st.turns, _, [], rfl, rfl⟩

theorem runStep_next_facts (cfg : RunCfg) (resp : LLMResp) (st st2 : LoopSt)
    (h : runStep cfg resp st = StepOut.next st2) :
    st.turns <+: st2.turns
    ∧ st.reasons <+: st2.reasons
    ∧ st2.turn = st.turn + 1
    ∧ (∀ x ∈ st2.reasons, x ∈ st.reasons ∨ x ∈ loopReasons)
    ∧ (st2.reasons = st.reasons → st2.final_response = st.final_response)
    ∧ ("final_result" ∈ st2.reasons →
        "final_result" ∈ st.reasons ∨ DupFinal st2.turns) := by
  cases resp with
  | fail e =>
    simp only [runStep] at h
    cases h
  | reply content tcs =>
    cases tcs with
    | nil =>
      simp only [runStep] at h
      cases h
    | cons c cs =>
      simp only [runStep] at h
      rcases hp : procCalls cfg.loads (c :: cs) with ⟨recs, fin⟩
      rw [hp] at h
      cases fin with
      | none =>
        dsimp only at h
        cases h
        refine ⟨List.prefix_append _ _, List.prefix_refl _, rfl,
          fun x hx => Or.inl hx, fun _ => rfl, fun hm => Or.inl hm⟩
      | some pair =>
        obtain ⟨fd, res⟩ := pair
        dsimp only at h
        cases hn : fd.isNone with
        | false => rw [if_neg (by simp [hn])] at h; cases h
        | true =>
          rw [if_pos hn] at h
          cases h
          refine ⟨List.prefix_append _ _, List.prefix_append _ _, rfl, ?_, ?_, ?_⟩
          · intro x hx
            rcases List.mem_append.mp hx with hx | hx
            · exact Or.inl hx
            · right
              simp at hx
              simp [loopReasons, hx]
          · intro heq
            exfalso
            have := congrArg List.length heq
            simp at this
          · intro _
            right
            exact ⟨st.turns, _, [], rfl, rfl⟩

theorem runLoop_facts (cfg : RunCfg) (oracle : Nat → LLMResp) :
    ∀ fuel st,
      st.turns <+: (runLoop cfg oracle fuel st).turns
      ∧ st.reasons <+: (runLoop cfg oracle fuel st).reasons
      ∧ (∀ x ∈ (runLoop cfg oracle fuel st).reasons,
          x ∈ st.reasons ∨ x ∈ loopReasons)
      ∧ ((runLoop cfg oracle fuel st).reasons = st.reasons →
          (runLoop cfg oracle fuel st).turn = st.turn + fuel
          ∧ (runLoop cfg oracle fuel st).final_response = st.final_response)
      ∧ ("final_result" ∈ (runLoop cfg oracle fuel st).reasons →
          "final_result" ∈ st.reasons ∨ DupFinal (runLoop cfg oracle fuel st).turns) := by
  intro fuel
  induction fuel with
  | zero =>
    intro st
    exact ⟨List.prefix_refl _, List.prefix_refl _, fun x hx => Or.inl hx,
      fun _ => ⟨rfl, rfl⟩, fun hm => Or.inl hm⟩
  | succ fuel ih =>
    intro st
    cases hstep : runStep cfg (oracle st.callIdx) st with
    | halt st2 =>
      have hrun : runLoop cfg oracle (fuel + 1) st = st2 := by
        simp only [runLoop, hstep]
      rw [hrun]
      obtain ⟨h1, h2, ⟨r, hr, hreq⟩, h4⟩ := runStep_halt_facts cfg _ st st2 hstep
      refine ⟨h1, h2, ?_, ?_, h4⟩
      · intro x hx
        rw [hreq] at hx
        rcases List.mem_append.mp hx with hx | hx
        · exact Or.inl hx
        · right
          simp at hx
          rw [hx]
          exact hr
      · intro hcontra
        exfalso
        rw [hreq] at hcontra
        have := congrArg List.length hcontra
        simp at this
    | next st2 =>
      have hrun : runLoop cfg oracle (fuel + 1) st = runLoop cfg oracle fuel st2 := by
        simp only [runLoop, hstep]
      rw [hrun]
      obtain ⟨h1, h2, h3, h4, h5, h6⟩ := runStep_next_facts cfg _ st st2 hstep
      obtain ⟨g1, g2, g3, g4, g5⟩ := ih st2
      refine ⟨h1.trans g1, h2.trans g2, ?_, ?_, ?_⟩
      · intro x hx
        rcases g3 x hx with hx2 | hx2
        · exact h4 x hx2
        · exact Or.inr hx2
      · intro heq
        have hst2 : st2.reasons = st.reasons := by
          obtain ⟨t1, ht1⟩ := h2
          obtain ⟨t2, ht2⟩ := g2
          have hchain : st.reasons ++ (t1 ++ t2) = st.reasons ++ [] := by
            rw [← List.append_assoc, ht1, ht2, heq, List.append_nil]
          have ht12 : t1 ++ t2 = [] := List.append_cancel_left hchain
          have ht1nil : t1 = [] := (List.append_eq_nil.mp ht12).1
          rw [← ht1, ht1nil, List.append_nil]
        have hout := g4 (by rw [heq, hst2])
        refine ⟨?_, ?_⟩
        · rw [hout.1, h3]
          omega
        · rw [hout.2, h5 hst2]
      · intro hfm
        rcases g5 hfm with hcase | hcase
        · rcases h6 hcase with h' | h'
          · exact Or.inl h'
          · exact Or.inr (dupFinal_mono h' g1)
        · exact Or.inr hcase

/-- C3 [amended]: in every completed run the termination reason is
assigned at least once (twice when the synthesis call of the exhausted
turn budget itself fails, where max_turns_synthesized is overwritten by
max_turns_synthesis_failed, and again when a null final-result payload
lets the loop keep running after the reason was already set); every value
ever assigned, in particular the final one, is drawn from the closed
reason set; and the trajectory's turns list only ever grows: every loop
iteration and the synthesis step extend it, never remove from or reorder
it. -/
theorem c3_termination_reason_trace (cfg : RunCfg) (oracle : Nat → LLMResp) :
    (runAgent cfg oracle).reasons ≠ []
    ∧ (∀ x ∈ (runAgent cfg oracle).reasons, x ∈ termReasonSet)
    ∧ (∀ fuel st, st.turns <+: (runLoop cfg oracle fuel st).turns)
    ∧ (runLoop cfg oracle cfg.max_turns initLoopSt).turns
        <+: (runAgent cfg oracle).turns := by
  obtain ⟨hf1, hf2, hf3, hf4, hf5⟩ := runLoop_facts cfg oracle cfg.max_turns initLoopSt
  have hinitmem : ∀ x ∈ (runLoop cfg oracle cfg.max_turns initLoopSt).reasons,
      x ∈ termReasonSet := by
    intro x hx
    rcases hf3 x hx with h | h
    · simp [initLoopSt] at h
    · exact loopReasons_subset_term x h
  unfold runAgent
  by_cases hc : cfg.max_turns ≤ (runLoop cfg oracle cfg.max_turns initLoopSt).turn
      ∧ (runLoop cfg oracle cfg.max_turns initLoopSt).final_response = ""
  · rw [if_pos hc]
    cases ho : oracle (runLoop cfg oracle cfg.max_turns initLoopSt).callIdx with
    | fail e =>
      refine ⟨by simp, ?_, fun fuel st => (runLoop_facts cfg oracle fuel st).1,
        List.prefix_refl _⟩
      intro x hx
      simp only [List.mem_append, List.mem_singleton] at hx
      rcases hx with (hx | hx) | hx
      · exact hinitmem x hx
      · rw [hx]; simp [termReasonSet]
      · rw [hx]; simp [termReasonSet]
    | reply content tcs =>
      refine ⟨by simp, ?_, fun fuel st => (runLoop_facts cfg oracle fuel st).1,
        List.prefix_append _ _⟩
      intro x hx
      simp only [List.mem_append, List.mem_singleton] at hx
      rcases hx with hx | hx
      · exact hinitmem x hx
      · rw [hx]; simp [termReasonSet]
  · rw [if_neg hc]
    refine ⟨?_, hinitmem, fun fuel st => (runLoop_facts cfg oracle fuel st).1,
      List.prefix_refl _⟩
    intro hnil
    dsimp only at hnil
    have h0 : (runLoop cfg oracle cfg.max_turns initLoopSt).reasons
        = initLoopSt.reasons := by
      rw [hnil]; rfl
    obtain ⟨ht, hfr⟩ := hf4 h0
    apply hc
    constructor
    · rw [ht]
      simp [initLoopSt]
    · rw [hfr]
      rfl

def cfgC3 : RunCfg :=
  { max_turns := 1, tools := ["bash"], loads := fun _ => Option.none,
    dumps := fun _ => "", inject := fun _ => Option.none }

def oracleC3 : Nat → LLMResp :=
  fun n => if n = 0 then LLMResp.reply Option.none [⟨"bash", "ls", "no markers here"⟩]
           else LLMResp.fail "boom"

/-- C3 counterexample: a run that exhausts its single turn and whose
synthesis call raises assigns the termination reason twice, first
max_turns_synthesized and then max_turns_synthesis_failed, refuting the
claim that the reason is assigned exactly once per run. -/
theorem c3_counterexample :
    (runAgent cfgC3 oracleC3).reasons
        = ["max_turns_synthesized", "max_turns_synthesis_failed"]
    ∧ (runAgent cfgC3 oracleC3).reasons.length ≠ 1 := by
  constructor
  · rfl
  · decide

/-- Witness for C3 amended at a concrete run, showing one of its reason
values drawn from the closed set. -/
theorem c3_termination_reason_trace_witness :
    "max_turns_synthesized" ∈ termReasonSet :=
  (c3_termination_reason_trace cfgC3 oracleC3).2.1 "max_turns_synthesized"
    (by decide)

/-- C10: every run whose final termination reason is final_result carries
the terminating turn's record twice in adjacent positions of the
persisted turns list: once appended at the break inside the per-tool-call
loop and once again after that loop exits. -/
theorem c10_final_turn_duplicated (cfg : RunCfg) (oracle : Nat → LLMResp)
    (h : (runAgent cfg oracle).reasons.getLast? = some "final_result") :
    DupFinal (runAgent cfg oracle).turns := by
  obtain ⟨hf1, hf2, hf3, hf4, hf5⟩ := runLoop_facts cfg oracle cfg.max_turns initLoopSt
  unfold runAgent at h ⊢
  by_cases hc : cfg.max_turns ≤ (runLoop cfg oracle cfg.max_turns initLoopSt).turn
      ∧ (runLoop cfg oracle cfg.max_turns initLoopSt).final_response = ""
  · rw [if_pos hc] at h ⊢
    cases ho : oracle (runLoop cfg oracle cfg.max_turns initLoopSt).callIdx with
    | fail e =>
      rw [ho] at h
      dsimp only at h
      rw [List.getLast?_concat] at h
      simp at h
    | reply content tcs =>
      rw [ho] at h
      dsimp only at h
      rw [List.getLast?_concat] at h
      simp at h
  · rw [if_neg hc] at h ⊢
    dsimp only at h ⊢
    have hmem : "final_result" ∈ (runLoop cfg oracle cfg.max_turns initLoopSt).reasons :=
      List.mem_of_getLast?_eq_some h
    rcases hf5 hmem with h0 | h0
    · simp [initLoopSt] at h0
    · exact h0

def cfgC10 : RunCfg :=
  { max_turns := 1, tools := ["bash"],
    loads := fun l => if l = "7".data then some (PyObj.int 7) else Option.none,
    dumps := fun _ => "7", inject := fun _ => Option.none }

def oracleC10 : Nat → LLMResp :=
  fun n =>
    if n = 0 then
      LLMResp.reply Option.none
        [⟨"bash", "submit", "<<<FINAL_RESULT>>>7<<<END_FINAL_RESULT>>>"⟩]
    else LLMResp.fail "unused"

/-- Witness for C10 at a concrete run terminating through the Final
Result Protocol. -/
theorem c10_final_turn_duplicated_witness :
    DupFinal (runAgent cfgC10 oracleC10).turns :=
  c10_final_turn_duplicated cfgC10 oracleC10 (by decide)

def cfgC2 : RunCfg :=
  { max_turns := 1, tools := ["bash"], loads := fun _ => Option.none,
    dumps := fun _ => "", inject := fun _ => Option.none }

def oracleC2ok : Nat → LLMResp :=
  fun n => if n = 0 then LLMResp.reply Option.none [⟨"bash", "ls", "listing"⟩]
           else LLMResp.reply (some "summary") []

def oracleC2fail : Nat → LLMResp :=
  fun n => if n = 0 then LLMResp.reply Option.none [⟨"bash", "ls", "listing"⟩]
           else LLMResp.fail "timeout"

/-- C2 [code bug]: on a run that exhausts its turn budget with no final
response, exactly one additional model call is made (two calls total for
a one-turn budget), and the reasons and non-empty outputs match the
claim; but that synthesis call receives the very same non-empty tools
argument (the bash schema) as every loop call, not "no tools" — the code
passes self.tools at agent.py line 576 while its own comment at line 572
and the specification require a call without tools. -/
theorem c2_synthesis_call_passes_tools :
    (runAgent cfgC2 oracleC2ok).callsTools = [some ["bash"], some ["bash"]]
    ∧ (runAgent cfgC2 oracleC2ok).reasons = ["max_turns_synthesized"]
    ∧ (runAgent cfgC2 oracleC2ok).output = "summary"
    ∧ (runAgent cfgC2 oracleC2fail).callsTools = [some ["bash"], some ["bash"]]
    ∧ (runAgent cfgC2 oracleC2fail).reasons
        = ["max_turns_synthesized", "max_turns_synthesis_failed"]
    ∧ (runAgent cfgC2 oracleC2fail).output
        = "Reached maximum reasoning steps. Failed to synthesize: " ++ "timeout"
    ∧ toolsArg cfgC2 = some ["bash"] :=
  ⟨rfl, rfl, rfl, rfl, rfl, rfl, rfl⟩

theorem run_subagent_task_id (tid : Nat) (t msid : String)
    (o : Except String String) : (run_subagent tid t msid o).task_id = tid := by
  cases o <;> rfl

/- The record produced for 0-based task index i. -/
def c9RecOf (tasks : List String) (msid : String)
    (outcomes : Nat → Except String String) (i : Nat) : TaskRec :=
  run_subagent (i + 1) (tasks.getD i "") msid (outcomes i)

theorem insertionSort_perm_canonical (tasks : List String) (msid : String)
    (outcomes : Nat → Except String String) (order : List Nat)
    (hperm : order.Perm (List.range tasks.length)) :
    List.insertionSort tidLe (order.map (c9RecOf tasks msid outcomes))
      = (List.range tasks.length).map (c9RecOf tasks msid outcomes) := by
  have hpm : (order.map (c9RecOf tasks msid outcomes)).Perm
      ((List.range tasks.length).map (c9RecOf tasks msid outcomes)) :=
    hperm.map _
  have hsortperm :
      (List.insertionSort tidLe (order.map (c9RecOf tasks msid outcomes))).Perm
        ((List.range tasks.length).map (c9RecOf tasks msid outcomes)) :=
    (List.perm_insertionSort tidLe _).trans hpm
  have hid : ∀ i, (c9RecOf tasks msid outcomes i).task_id = i + 1 := by
    intro i
    exact run_subagent_task_id _ _ _ _
  have hcansorted : List.Sorted tidLt
      ((List.range tasks.length).map (c9RecOf tasks msid outcomes)) := by
    apply List.Pairwise.map (c9RecOf tasks msid outcomes)
      (S := tidLt) (fun a b hab => ?_) (List.pairwise_lt_range tasks.length)
    unfold tidLt
    rw [hid, hid]
    omega
  have hsortle : List.Sorted tidLe
      (List.insertionSort tidLe (order.map (c9RecOf tasks msid outcomes))) :=
    List.sorted_insertionSort tidLe _
  have hids : ((List.insertionSort tidLe
      (order.map (c9RecOf tasks msid outcomes))).map
        (fun r => r.task_id)).Nodup := by
    apply (List.Perm.nodup_iff (List.Perm.map _ hsortperm)).mpr
    rw [List.map_map]
    have hcomp : ((fun r : TaskRec => r.task_id) ∘ c9RecOf tasks msid outcomes)
        = fun i => i + 1 := by
      funext i
      exact hid i
    rw [hcomp]
    exact (List.nodup_range tasks.length).map (fun a b hab => by omega)
  have hsortlt : List.Sorted tidLt
      (List.insertionSort tidLe (order.map (c9RecOf tasks msid outcomes))) := by
    have hne : List.Pairwise (fun a b : TaskRec => a.task_id ≠ b.task_id)
        (List.insertionSort tidLe (order.map (c9RecOf tasks msid outcomes))) :=
      List.pairwise_map.mp hids
    exact (hsortle.and hne).imp (fun hab => Nat.lt_of_le_of_ne hab.1 hab.2)
  exact List.eq_of_perm_of_sorted hsortperm hsortlt hcansorted

/-- C9: with 1 to 5 tasks, whatever completion order the worker threads
produce, the reported result list is exactly one record per task in
ascending task-id order (independent of the completion permutation); a
task whose sub-agent raised appears as a status error record carrying the
exception text and nothing is propagated; and the parent session store
receives the task-assignment note followed by the full sorted result set
as a single note. -/
theorem c9_spawn_results (tasks : List String) (msid : String)
    (outcomes : Nat → Except String String) (order : List Nat)
    (store0 : List StoreNote)
    (hlen1 : 1 ≤ tasks.length) (hlen5 : tasks.length ≤ 5)
    (hperm : order.Perm (List.range tasks.length)) :
    (spawn_main tasks msid outcomes order store0).results
        = (List.range tasks.length).map (c9RecOf tasks msid outcomes)
    ∧ (spawn_main tasks msid outcomes order store0).results.map
          (fun r => r.task_id)
        = (List.range tasks.length).map (fun i => i + 1)
    ∧ (∀ i, i < tasks.length → ∀ e, outcomes i = Except.error e →
        ({ task_id := i + 1, task := tasks.getD i "", status := "error",
           report := Option.none, error := some e,
           session_id := Option.none } : TaskRec)
          ∈ (spawn_main tasks msid outcomes order store0).results)
    ∧ (spawn_main tasks msid outcomes order store0).store
        = store0 ++
          [StoreNote.assignment tasks.length
            ((List.range tasks.length).map (fun i => (i + 1, tasks.getD i ""))),
           StoreNote.results tasks.length
             (spawn_main tasks msid outcomes order store0).results] := by
  have hshow : (spawn_main tasks msid outcomes order store0).results
      = (List.range tasks.length).map (c9RecOf tasks msid outcomes) :=
    insertionSort_perm_canonical tasks msid outcomes order hperm
  have hid : ∀ i, (c9RecOf tasks msid outcomes i).task_id = i + 1 := by
    intro i
    exact run_subagent_task_id _ _ _ _
  refine ⟨hshow, ?_, ?_, ?_⟩
  · rw [hshow, List.map_map]
    have hcomp : ((fun r : TaskRec => r.task_id) ∘ c9RecOf tasks msid outcomes)
        = fun i => i + 1 := by
      funext i
      exact hid i
    rw [hcomp]
  · intro i hi e he
    rw [hshow]
    apply List.mem_map.mpr
    refine ⟨i, List.mem_range.mpr hi, ?_⟩
    unfold c9RecOf run_subagent
    rw [he]
  · show (store0 ++ [StoreNote.assignment tasks.length
        ((List.range tasks.length).map (fun i => (i + 1, tasks.getD i "")))])
        ++ [StoreNote.results tasks.length
             (spawn_main tasks msid outcomes order store0).results]
      = _
    rw [List.append_assoc]
    rfl

def c9Outcomes : Nat → Except String String :=
  fun i => if i = 1 then Except.error "boom" else Except.ok "report"

/-- Witness for C9 with three tasks completing in the order 3, 1, 2 and
the second task raising. -/
theorem c9_spawn_results_witness :
    (spawn_main ["a", "b", "c"] "s1" c9Outcomes [2, 0, 1] []).results.map
        (fun r => r.task_id)
      = (List.range 3).map (fun i => i + 1) :=
  (c9_spawn_results ["a", "b", "c"] "s1" c9Outcomes [2, 0, 1] []
    (by decide) (by decide) (by decide)).2.1
